import Mathlib

/-!
Verification of the presentation-layer driver `run_vm` (and the page-scale
buttons) in `src/app.rs` of the pipa-playground repository, against its
natural-language specification.

The pipa engine itself (crate `pipa`: `ast`, `gen_ir`, `Vm`, the dumps) is
not among this repository's sources; `run_vm` only calls it.  The driver is
therefore embedded as a function over an abstract `Engine` interface, and
the claims about `run_vm`'s plumbing are settled for every engine.  Where a
claim needs actual engine behavior (host-text passthrough, `dump_state`),
that behavior is modelled from the spec in clearly marked definitions.
-/

/-- Model of Rust `str::replace` with the single-character pattern tab and
replacement four spaces, as performed by `run_vm` on `state.code`: each tab
expands to four spaces, every other character passes through. -/
def replaceTabsL : List Char → List Char
  | [] => []
  | c :: rest => (if c = '\t' then [' ', ' ', ' ', ' '] else [c]) ++ replaceTabsL rest

/-- String version of `replaceTabsL`. -/
def replaceTabs (s : String) : String := ⟨replaceTabsL s.data⟩

/-- Whether a character sequence starts with an opening brace. -/
def headIsBrace : List Char → Bool
  | c :: _ => if c = '\x7b' then true else false
  | [] => false

/-- Whether a character sequence contains two adjacent opening braces,
the script-block opener of the template language. -/
def hasBrace2 : List Char → Bool
  | c :: rest => if c = '\x7b' then headIsBrace rest || hasBrace2 rest else hasBrace2 rest
  | [] => false

/-- A source string contains no script block: no two adjacent opening
braces occur in it. -/
def noBlock (s : String) : Prop := hasBrace2 s.data = false

instance (s : String) : Decidable (noBlock s) :=
  inferInstanceAs (Decidable (hasBrace2 s.data = false))

/-- Model of Rust `str::lines`, as used by `run_vm` to split a stored
array string into elements: a line is terminated by a newline, a carriage
return immediately before the newline is stripped, and a final
unterminated segment forms the last line (with no carriage-return
stripping, matching `std`).  `acc` holds the current line reversed. -/
def stripCR : List Char → List Char
  | a :: rest => if a = '\r' then rest else a :: rest
  | [] => []

/-- Worker for the `str::lines` model; `stripCR` drops the carriage
return that (in reversed order) heads a line terminated by `\r\n`. -/
def rustLinesAux (acc : List Char) : List Char → List (List Char)
  | [] => if acc = [] then [] else [acc.reverse]
  | c :: rest =>
    if c = '\n' then (stripCR acc).reverse :: rustLinesAux [] rest
    else rustLinesAux (c :: acc) rest

/-- String version of `rustLinesAux`: the ordered lines of `s`. -/
def rustLines (s : String) : List String :=
  (rustLinesAux [] s.data).map fun l => ⟨l⟩

/-- Lexicographic order on character sequences, the order of Rust
`String` keys in a `BTreeMap` (codepoint-wise comparison coincides with
Rust's UTF-8 byte-wise comparison). -/
def chLt : List Char → List Char → Bool
  | _, [] => false
  | [], _ :: _ => true
  | a :: as, b :: bs => if a < b then true else if a = b then chLt as bs else false

/-- Lexicographic order on strings, via `chLt`. -/
def strLt (a b : String) : Bool := chLt a.data b.data

/-- Model of `std::collections::BTreeMap` with `String` keys as a
key-sorted association list: `btInsert` inserts at the sorted position and
replaces an existing binding, the semantics of `BTreeMap::insert`. -/
def btInsert {α : Type} (k : String) (v : α) : List (String × α) → List (String × α)
  | [] => [(k, v)]
  | (k', v') :: rest =>
    if strLt k k' then (k, v) :: (k', v') :: rest
    else if k = k' then (k, v) :: rest
    else (k', v') :: btInsert k v rest

/-- Build a `BTreeMap` model by inserting entries left to right, the
semantics of `BTreeMap::from` and of repeated `insert` calls made by the
variable/array editors. -/
def btOfList {α : Type} (l : List (String × α)) : List (String × α) :=
  l.foldl (fun m p => btInsert p.1 p.2 m) []

/-- The pipa engine interface exactly as consumed by `run_vm` in
`src/app.rs`: `ast` (lex + parse), `gen_ir` (lowering), the VM — `vmRun`
returns the bytes it wrote to the output sink together with an optional
runtime error —, the two debug dumps, and diagnostic rendering
`write_message e file_label source`.  Claims about `run_vm`'s plumbing
are proved for every engine with this interface. -/
structure Engine (Ast Ir Err : Type) where
  ast : String → Except Err Ast
  gen_ir : String → Ast → Except Err Ir
  vmRun : List (String × String) → List (String × List String) → Ir → String × Option Err
  dump_state : List (String × String) → List (String × List String) → String
  dump_ir : Ir → String
  write_message : Err → String → String → String

/-- The persisted `App` state of `src/app.rs`.  `scale` is an `f32` in
Rust, modelled as a rational (every value reachable by the scale buttons
is a small multiple of one half, on which `f32` arithmetic is exact); the
`BTreeMap` fields are modelled as key-sorted association lists. -/
structure App where
  scale : ℚ
  new_var : String × String
  new_array : String × String
  vars : List (String × String)
  arrays : List (String × String)
  code : String
  console : String
  output : String

/-- The array environment built inside `run_vm`: each stored multi-line
string is split with Rust `str::lines` into the ordered list of its
lines. -/
def mkArrays (arrays : List (String × String)) : List (String × List String) :=
  arrays.map fun p => (p.1, rustLines p.2)

/-- The body of `run_vm` after the tab rewrite, as a function of the data
it reads (the rewritten `code`, `vars`, `arrays`).  Returns the bytes
written to the `output` sink, the new console contents (`none` on the two
early error returns, which leave the console untouched), and the runtime
error that `run_vm` passes to `dbg!` (`none` otherwise). -/
def run_core {Ast Ir Err : Type} (E : Engine Ast Ir Err) (code : String)
    (vars : List (String × String)) (arrays : List (String × String)) :
    String × Option String × Option Err :=
  match E.ast code with
  | .error e => (E.write_message e "index.pipa" code, none, none)
  | .ok tokens =>
    match E.gen_ir code tokens with
    | .error e => (E.write_message e "index.pipa" code, none, none)
    | .ok ir =>
      let vmVars := vars
      let vmArrays := mkArrays arrays
      let r := E.vmRun vmVars vmArrays ir
      (r.1, some (E.dump_state vmVars vmArrays ++ "\n" ++ E.dump_ir ir), r.2)

/-- `run_vm` from `src/app.rs`: first rewrites every tab in `state.code`
to four spaces and stores the result back, then compiles and runs, then
stores output and console.  The second component of the result models the
`dbg!` debug channel (stderr), which receives a runtime VM error and
nothing else. -/
def run_vm {Ast Ir Err : Type} (E : Engine Ast Ir Err) (s : App) : App × Option Err :=
  let code := replaceTabs s.code
  let r := run_core E code s.vars s.arrays
  ({ s with code := code, output := r.1, console := (r.2.1).getD s.console }, r.2.2)

/-- An engine with constant stage results, used to instantiate the
universally quantified `run_vm` theorems at concrete inputs. -/
def testEngine (astR : Except String String) (irR : Except String String)
    (out : String) (err : Option String) : Engine String String String where
  ast := fun _ => astR
  gen_ir := fun _ _ => irR
  vmRun := fun _ _ _ => (out, err)
  dump_state := fun _ _ => "S"
  dump_ir := fun _ => "I"
  write_message := fun e f _ => "error at " ++ f ++ ": " ++ e

/-- Modelled from the spec: the pipa engine (crate `pipa`) is not part of
this repository's sources, so the behavior needed by the host-text
round-trip claim is modelled from the spec — lexing never fails on host
text and a source containing no script block renders verbatim (spec §8,
Round-trip of host text).  Script-block evaluation is not modelled: on a
source that does contain a block opener the model returns a runtime error
standing for the unmodelled evaluation, so every theorem using this model
carries the no-block hypothesis. -/
def specEngine : Engine String String Unit where
  ast := fun s => .ok s
  gen_ir := fun _ a => .ok a
  vmRun := fun _ _ ir => if hasBrace2 ir.data then ("", some ()) else (ir, none)
  dump_state := fun _ _ => ""
  dump_ir := fun _ => ""
  write_message := fun _ f _ => "error in " ++ f

/-- Modelled from the spec: `Vm::dump_state` is not part of this
repository's sources; per spec §4.5 it renders `Variables` and `Arrays`
in stable sorted-key order for reproducible diffs, here as one
`key = value` line per entry in map order. -/
def dump_state_model (vars : List (String × String))
    (arrays : List (String × List String)) : String :=
  String.join (vars.map fun p => p.1 ++ " = " ++ p.2 ++ "\n") ++
  String.join (arrays.map fun p => p.1 ++ " = " ++ String.intercalate ", " p.2 ++ "\n")

/-- An `App` state holding the given code, environments and console. -/
def mkAppFull (code : String) (vars arrays : List (String × String))
    (console : String) : App :=
  { scale := 1, new_var := ("", ""), new_array := ("", ""), vars := vars, arrays := arrays,
    code := code, console := console, output := "" }

/-- An `App` state holding the given code, with empty environments. -/
def mkApp (code : String) : App := mkAppFull code [] [] ""

/-- The page-scale decrement performed by the `-` button in
`App::update`: subtract one half, clamping below at one. -/
def scaleDec (s : ℚ) : ℚ :=
  if s - 1/2 < 1 then 1 else s - 1/2

/-- The page-scale increment performed by the `+` button in
`App::update`: add one half, clamping above at five. -/
def scaleInc (s : ℚ) : ℚ :=
  if s + 1/2 > 5 then 5 else s + 1/2

/-! Order facts for `chLt`/`strLt`, needed to reason about the
`BTreeMap` model. -/

theorem chLt_nil (a : List Char) : chLt a [] = false := by
  cases a <;> rfl

theorem chLt_iff : ∀ a b : List Char, chLt a b = true ↔ List.Lex (· < ·) a b
  | _, [] => by
    rw [chLt_nil]
    simp [List.Lex.not_nil_right]
  | [], _ :: _ => by
    simp [chLt, List.Lex.nil]
  | x :: xs, y :: ys => by
    simp only [chLt]
    constructor
    · intro h
      split_ifs at h with h1 h2
      · exact List.Lex.rel h1
      · exact h2 ▸ List.Lex.cons ((chLt_iff xs ys).1 h)
    · intro h
      cases h with
      | rel h1 => simp [h1]
      | cons h2 => simp [lt_irrefl, (chLt_iff xs ys).2 h2]

theorem strLt_iff (a b : String) : strLt a b = true ↔ List.Lex (· < ·) a.data b.data :=
  chLt_iff a.data b.data

theorem strLt_irrefl (a : String) : strLt a a = false := by
  rw [← Bool.not_eq_true, strLt_iff]
  exact irrefl_of (List.Lex (· < ·)) a.data

theorem strLt_asymm {a b : String} (h : strLt a b = true) : strLt b a = false := by
  rw [← Bool.not_eq_true, strLt_iff]
  exact asymm_of (List.Lex (· < ·)) ((strLt_iff a b).1 h)

theorem strLt_trans {a b c : String} (h1 : strLt a b = true) (h2 : strLt b c = true) :
    strLt a c = true := by
  rw [strLt_iff]
  exact trans_of (List.Lex (· < ·)) ((strLt_iff a b).1 h1) ((strLt_iff b c).1 h2)

theorem strLt_conn {a b : String} (h1 : strLt a b = false) (h2 : strLt b a = false) :
    a = b := by
  have h : List.Lex (· < ·) a.data b.data ∨ a.data = b.data ∨ List.Lex (· < ·) b.data a.data :=
    trichotomous_of (List.Lex (· < ·)) a.data b.data
  rcases h with h | h | h
  · exact absurd ((strLt_iff a b).2 h) (by simp [h1])
  · cases a; cases b; exact congrArg String.mk h
  · exact absurd ((strLt_iff b a).2 h) (by simp [h2])

example : replaceTabs "a\tb" = "a    b" := by decide
example : rustLines "first\nsecond\nthird" = ["first", "second", "third"] := by decide
example : rustLines "a\r\nb\r" = ["a", "b\r"] := by decide
example : rustLines "a\n" = ["a"] := by decide
example : rustLines "" = [] := by decide
example : btOfList [("b", 1), ("a", 2)] = [("a", 2), ("b", 1)] := by decide
example : btOfList [("a", 2), ("b", 1)] = [("a", 2), ("b", 1)] := by decide
example : (run_vm specEngine (mkApp "a\tb")).1.output = "a    b" := by decide

/-! Structural lemmas about `run_core` and `run_vm`, shared by the claim
theorems below. -/

theorem run_core_ast_err {Ast Ir Err : Type} (E : Engine Ast Ir Err) {code : String}
    {e : Err} (h : E.ast code = .error e) (vars arrays : List (String × String)) :
    run_core E code vars arrays = (E.write_message e "index.pipa" code, none, none) := by
  simp [run_core, h]

theorem run_core_genir_err {Ast Ir Err : Type} (E : Engine Ast Ir Err) {code : String}
    {ta : Ast} {e : Err} (h1 : E.ast code = .ok ta) (h2 : E.gen_ir code ta = .error e)
    (vars arrays : List (String × String)) :
    run_core E code vars arrays = (E.write_message e "index.pipa" code, none, none) := by
  simp [run_core, h1, h2]

theorem run_core_ok {Ast Ir Err : Type} (E : Engine Ast Ir Err) {code : String}
    {ta : Ast} {ir : Ir} (h1 : E.ast code = .ok ta) (h2 : E.gen_ir code ta = .ok ir)
    (vars arrays : List (String × String)) :
    run_core E code vars arrays =
      ((E.vmRun vars (mkArrays arrays) ir).1,
       some (E.dump_state vars (mkArrays arrays) ++ "\n" ++ E.dump_ir ir),
       (E.vmRun vars (mkArrays arrays) ir).2) := by
  simp [run_core, h1, h2]

theorem run_vm_eq {Ast Ir Err : Type} (E : Engine Ast Ir Err) (s : App) :
    run_vm E s =
      (let r := run_core E (replaceTabs s.code) s.vars s.arrays
       ({ s with code := replaceTabs s.code, output := r.1,
                 console := (r.2.1).getD s.console }, r.2.2)) := rfl

theorem run_vm_code {Ast Ir Err : Type} (E : Engine Ast Ir Err) (s : App) :
    (run_vm E s).1.code = replaceTabs s.code := rfl

theorem run_vm_output {Ast Ir Err : Type} (E : Engine Ast Ir Err) (s : App) :
    (run_vm E s).1.output = (run_core E (replaceTabs s.code) s.vars s.arrays).1 := rfl

theorem run_vm_console {Ast Ir Err : Type} (E : Engine Ast Ir Err) (s : App) :
    (run_vm E s).1.console =
      ((run_core E (replaceTabs s.code) s.vars s.arrays).2.1).getD s.console := rfl

theorem run_vm_dbg {Ast Ir Err : Type} (E : Engine Ast Ir Err) (s : App) :
    (run_vm E s).2 = (run_core E (replaceTabs s.code) s.vars s.arrays).2.2 := rfl

theorem run_vm_ext {Ast Ir Err : Type} {E E' : Engine Ast Ir Err} (s : App)
    (h : run_core E' (replaceTabs s.code) s.vars s.arrays
        = run_core E (replaceTabs s.code) s.vars s.arrays) :
    run_vm E' s = run_vm E s := by
  unfold run_vm
  simp only []
  rw [h]

theorem replaceTabsL_no_tab : ∀ l : List Char, ∀ c ∈ replaceTabsL l, c ≠ '\t' := by
  intro l
  induction l with
  | nil => intro c hc; simp [replaceTabsL] at hc
  | cons c0 rest ih =>
    intro c hc
    simp only [replaceTabsL, List.mem_append] at hc
    rcases hc with hc | hc
    · by_cases h : c0 = '\t'
      · rw [if_pos h] at hc
        simp only [List.mem_cons, List.not_mem_nil, or_false, or_self] at hc
        rw [hc]; decide
      · rw [if_neg h] at hc
        simp only [List.mem_cons, List.not_mem_nil, or_false] at hc
        rw [hc]; exact h
    · exact ih c hc

/-- C9: every `run_vm` call first overwrites the stored source text
`state.code` with a copy in which every tab character has been replaced by
four spaces, so after any run the persisted editor text contains no tab
characters. -/
theorem C9_code_tab_rewrite {Ast Ir Err : Type} (E : Engine Ast Ir Err) (s : App) :
    (run_vm E s).1.code = replaceTabs s.code ∧
    ∀ c ∈ (run_vm E s).1.code.data, c ≠ '\t' :=
  ⟨rfl, replaceTabsL_no_tab s.code.data⟩

/-- C9 witness: the theorem applied at a concrete engine and state. -/
theorem C9_code_tab_rewrite_witness :
    (run_vm (testEngine (.ok "A") (.ok "I") "out" none) (mkApp "a\tb")).1.code
      = replaceTabs "a\tb" :=
  (C9_code_tab_rewrite (testEngine (.ok "A") (.ok "I") "out" none) (mkApp "a\tb")).1

/-- C6: each `run_vm` call hands the VM an environment built freshly from
the current `state.vars` and `state.arrays` snapshots, and leaves the
`vars` and `arrays` maps (and `scale`, `new_var`, `new_array`) unchanged:
only `code`, `output` and `console` may differ after the call. -/
theorem C6_environment_frame {Ast Ir Err : Type} (E : Engine Ast Ir Err) (s : App) :
    (run_vm E s).1.vars = s.vars ∧ (run_vm E s).1.arrays = s.arrays ∧
    (run_vm E s).1.scale = s.scale ∧ (run_vm E s).1.new_var = s.new_var ∧
    (run_vm E s).1.new_array = s.new_array ∧
    ∀ (ta : Ast) (ir : Ir), E.ast (replaceTabs s.code) = .ok ta →
      E.gen_ir (replaceTabs s.code) ta = .ok ir →
      (run_vm E s).1.output = (E.vmRun s.vars (mkArrays s.arrays) ir).1 := by
  refine ⟨rfl, rfl, rfl, rfl, rfl, fun ta ir h1 h2 => ?_⟩
  rw [run_vm_output, run_core_ok E h1 h2]

/-- C6 witness: the theorem applied at a concrete engine and state. -/
theorem C6_environment_frame_witness :
    (run_vm (testEngine (.ok "A") (.ok "I") "out" none)
        (mkAppFull "x" [("k", "v")] [("L", "a\nb")] "c")).1.vars = [("k", "v")] :=
  (C6_environment_frame (testEngine (.ok "A") (.ok "I") "out" none)
    (mkAppFull "x" [("k", "v")] [("L", "a\nb")] "c")).1

/-- C5 counterexample: two states agreeing on `code`, `vars` and `arrays`
but with different prior consoles; when compilation fails, `run_vm`
returns early and leaves each state's previous console untouched, so the
consoles after the two runs differ byte-for-byte. -/
theorem C5_determinism_counterexample :
    (mkAppFull "x" [] [] "A").code = (mkAppFull "x" [] [] "B").code ∧
    (mkAppFull "x" [] [] "A").vars = (mkAppFull "x" [] [] "B").vars ∧
    (mkAppFull "x" [] [] "A").arrays = (mkAppFull "x" [] [] "B").arrays ∧
    (run_vm (testEngine (.error "bad") (.ok "I") "" none)
        (mkAppFull "x" [] [] "A")).1.console ≠
      (run_vm (testEngine (.error "bad") (.ok "I") "" none)
        (mkAppFull "x" [] [] "B")).1.console :=
  ⟨rfl, rfl, rfl, by decide⟩

/-- C5 (amended): `run_vm` is deterministic — for two states with
identical `code`, `vars` and `arrays`, the resulting `output` and the
`dbg!` channel are byte-for-byte identical, and the resulting `console`
is byte-for-byte identical provided the prior console contents were also
identical (on a compilation error `run_vm` leaves the console
untouched). -/
theorem C5_determinism {Ast Ir Err : Type} (E : Engine Ast Ir Err) (s₁ s₂ : App)
    (hc : s₁.code = s₂.code) (hv : s₁.vars = s₂.vars) (ha : s₁.arrays = s₂.arrays) :
    (run_vm E s₁).1.output = (run_vm E s₂).1.output ∧
    (run_vm E s₁).2 = (run_vm E s₂).2 ∧
    (s₁.console = s₂.console → (run_vm E s₁).1.console = (run_vm E s₂).1.console) := by
  have hcore : run_core E (replaceTabs s₁.code) s₁.vars s₁.arrays
      = run_core E (replaceTabs s₂.code) s₂.vars s₂.arrays := by
    rw [hc, hv, ha]
  refine ⟨?_, ?_, fun hcon => ?_⟩
  · rw [run_vm_output, run_vm_output, hcore]
  · rw [run_vm_dbg, run_vm_dbg, hcore]
  · rw [run_vm_console, run_vm_console, hcore, hcon]

/-- C5 witness: the amended theorem applied to two concrete states that
differ only in a field `run_vm` does not read. -/
theorem C5_determinism_witness :
    (mkApp "y").code = ({ mkApp "y" with output := "zz" } : App).code ∧
    (run_vm (testEngine (.ok "A") (.ok "I") "out" none) (mkApp "y")).1.output =
      (run_vm (testEngine (.ok "A") (.ok "I") "out" none)
        { mkApp "y" with output := "zz" }).1.output :=
  ⟨rfl, (C5_determinism (testEngine (.ok "A") (.ok "I") "out" none)
    (mkApp "y") { mkApp "y" with output := "zz" } rfl rfl rfl).1⟩

/-- C3: stage failures are strictly ordered and fail-fast.  If `ast`
fails with a syntax error, the result does not depend on `gen_ir`, the
VM, or the dumps (they are never invoked), and the output sink receives
exactly the diagnostic formatted with the file label `index.pipa`; if
`gen_ir` fails after a successful parse, the result does not depend on
the VM or the dumps, with the same diagnostic-only output.  In both cases
the console is left untouched and nothing reaches the `dbg!` channel. -/
theorem C3_fail_fast {Ast Ir Err : Type} (E : Engine Ast Ir Err) (s : App) :
    (∀ e : Err, E.ast (replaceTabs s.code) = .error e →
      (run_vm E s).1.output = E.write_message e "index.pipa" (replaceTabs s.code) ∧
      (run_vm E s).1.console = s.console ∧
      (run_vm E s).2 = none ∧
      ∀ (g : String → Ast → Except Err Ir)
        (vr : List (String × String) → List (String × List String) → Ir → String × Option Err)
        (ds : List (String × String) → List (String × List String) → String)
        (di : Ir → String),
        run_vm { E with gen_ir := g, vmRun := vr, dump_state := ds, dump_ir := di } s
          = run_vm E s) ∧
    (∀ (ta : Ast) (e : Err), E.ast (replaceTabs s.code) = .ok ta →
      E.gen_ir (replaceTabs s.code) ta = .error e →
      (run_vm E s).1.output = E.write_message e "index.pipa" (replaceTabs s.code) ∧
      (run_vm E s).1.console = s.console ∧
      (run_vm E s).2 = none ∧
      ∀ (vr : List (String × String) → List (String × List String) → Ir → String × Option Err)
        (ds : List (String × String) → List (String × List String) → String)
        (di : Ir → String),
        run_vm { E with vmRun := vr, dump_state := ds, dump_ir := di } s = run_vm E s) := by
  constructor
  · intro e h
    refine ⟨?_, ?_, ?_, fun g vr ds di => ?_⟩
    · rw [run_vm_output, run_core_ast_err E h]
    · rw [run_vm_console, run_core_ast_err E h]; rfl
    · rw [run_vm_dbg, run_core_ast_err E h]
    · exact run_vm_ext s (by
        rw [run_core_ast_err E h,
          run_core_ast_err { E with gen_ir := g, vmRun := vr, dump_state := ds, dump_ir := di } h])
  · intro ta e h1 h2
    refine ⟨?_, ?_, ?_, fun vr ds di => ?_⟩
    · rw [run_vm_output, run_core_genir_err E h1 h2]
    · rw [run_vm_console, run_core_genir_err E h1 h2]; rfl
    · rw [run_vm_dbg, run_core_genir_err E h1 h2]
    · exact run_vm_ext s (by
        rw [run_core_genir_err E h1 h2,
          run_core_genir_err { E with vmRun := vr, dump_state := ds, dump_ir := di } h1 h2])

/-- C3 witness: the syntax-error branch of the theorem applied to an
engine whose `ast` stage fails. -/
theorem C3_fail_fast_witness :
    (testEngine (.error "bad") (.ok "I") "out" none).ast
        (replaceTabs (mkApp "x").code) = .error "bad" ∧
    (run_vm (testEngine (.error "bad") (.ok "I") "out" none) (mkApp "x")).1.output =
      (testEngine (.error "bad") (.ok "I") "out" none).write_message "bad" "index.pipa"
        (replaceTabs (mkApp "x").code) ∧
    (run_vm (testEngine (.error "bad") (.ok "I") "out" none) (mkApp "x")).1.console
      = (mkApp "x").console :=
  ⟨rfl, ((C3_fail_fast (testEngine (.error "bad") (.ok "I") "out" none) (mkApp "x")).1
      "bad" rfl).1,
    ((C3_fail_fast (testEngine (.error "bad") (.ok "I") "out" none) (mkApp "x")).1
      "bad" rfl).2.1⟩

/-- C2: when the VM run returns a runtime error, `run_vm` passes the
error only to the `dbg!` channel; the user-visible output is the VM's
partial output and the console holds the two dumps, neither containing a
`write_message`-formatted diagnostic — the result does not depend on
`write_message` at all.  By contrast, an `ast` (syntax) or `gen_ir`
(semantic) failure is rendered via `write_message` into the output. -/
theorem C2_runtime_error_only_dbg {Ast Ir Err : Type} (E : Engine Ast Ir Err) (s : App)
    (ta : Ast) (ir : Ir) (out : String) (e : Err)
    (h1 : E.ast (replaceTabs s.code) = .ok ta)
    (h2 : E.gen_ir (replaceTabs s.code) ta = .ok ir)
    (h3 : E.vmRun s.vars (mkArrays s.arrays) ir = (out, some e)) :
    (run_vm E s).2 = some e ∧
    (run_vm E s).1.output = out ∧
    (run_vm E s).1.console =
      E.dump_state s.vars (mkArrays s.arrays) ++ "\n" ++ E.dump_ir ir ∧
    (∀ wm : Err → String → String → String,
      run_vm { E with write_message := wm } s = run_vm E s) ∧
    (∀ (s' : App) (e' : Err), E.ast (replaceTabs s'.code) = .error e' →
      (run_vm E s').1.output = E.write_message e' "index.pipa" (replaceTabs s'.code)) ∧
    (∀ (s' : App) (ta' : Ast) (e' : Err), E.ast (replaceTabs s'.code) = .ok ta' →
      E.gen_ir (replaceTabs s'.code) ta' = .error e' →
      (run_vm E s').1.output = E.write_message e' "index.pipa" (replaceTabs s'.code)) := by
  refine ⟨?_, ?_, ?_, fun wm => ?_, fun s' e' h => ?_, fun s' ta' e' ha hg => ?_⟩
  · rw [run_vm_dbg, run_core_ok E h1 h2, h3]
  · rw [run_vm_output, run_core_ok E h1 h2, h3]
  · rw [run_vm_console, run_core_ok E h1 h2]; rfl
  · exact run_vm_ext s (by
      rw [run_core_ok E h1 h2, run_core_ok { E with write_message := wm } h1 h2])
  · rw [run_vm_output, run_core_ast_err E h]
  · rw [run_vm_output, run_core_genir_err E ha hg]

/-- C2 witness: the theorem applied to an engine whose VM run fails with
a runtime error after writing partial output. -/
theorem C2_runtime_error_only_dbg_witness :
    (testEngine (.ok "A") (.ok "I") "partial" (some "boom")).vmRun []
        (mkArrays []) "I" = ("partial", some "boom") ∧
    (run_vm (testEngine (.ok "A") (.ok "I") "partial" (some "boom")) (mkApp "x")).2
      = some "boom" ∧
    (run_vm (testEngine (.ok "A") (.ok "I") "partial" (some "boom")) (mkApp "x")).1.output
      = "partial" :=
  ⟨rfl,
    (C2_runtime_error_only_dbg (testEngine (.ok "A") (.ok "I") "partial" (some "boom"))
      (mkApp "x") "A" "I" "partial" "boom" rfl rfl rfl).1,
    (C2_runtime_error_only_dbg (testEngine (.ok "A") (.ok "I") "partial" (some "boom"))
      (mkApp "x") "A" "I" "partial" "boom" rfl rfl rfl).2.1⟩

/-- C4: when the VM run fails with a runtime error, the partial output it
already wrote is not rolled back — `run_vm` stores it into
`state.output` and still fills `state.console` with `dump_state`
followed by `dump_ir`, exactly as it would on a successful run that
wrote the same output. -/
theorem C4_no_rollback {Ast Ir Err : Type} (E : Engine Ast Ir Err) (s : App)
    (ta : Ast) (ir : Ir) (out : String) (e : Err)
    (h1 : E.ast (replaceTabs s.code) = .ok ta)
    (h2 : E.gen_ir (replaceTabs s.code) ta = .ok ir)
    (h3 : E.vmRun s.vars (mkArrays s.arrays) ir = (out, some e)) :
    (run_vm E s).1.output = out ∧
    (run_vm E s).1.console =
      E.dump_state s.vars (mkArrays s.arrays) ++ "\n" ++ E.dump_ir ir ∧
    ∀ vr : List (String × String) → List (String × List String) → Ir → String × Option Err,
      vr s.vars (mkArrays s.arrays) ir = (out, none) →
      (run_vm { E with vmRun := vr } s).1.output = (run_vm E s).1.output ∧
      (run_vm { E with vmRun := vr } s).1.console = (run_vm E s).1.console := by
  refine ⟨?_, ?_, fun vr hvr => ⟨?_, ?_⟩⟩
  · rw [run_vm_output, run_core_ok E h1 h2, h3]
  · rw [run_vm_console, run_core_ok E h1 h2]; rfl
  · rw [run_vm_output, run_vm_output, run_core_ok E h1 h2,
      run_core_ok { E with vmRun := vr } h1 h2]
    dsimp only
    rw [h3, hvr]
  · rw [run_vm_console, run_vm_console, run_core_ok E h1 h2,
      run_core_ok { E with vmRun := vr } h1 h2]

/-- C4 witness: the theorem applied to an engine whose VM run fails after
writing partial output. -/
theorem C4_no_rollback_witness :
    (testEngine (.ok "A") (.ok "I") "part" (some "err")).vmRun []
        (mkArrays []) "I" = ("part", some "err") ∧
    (run_vm (testEngine (.ok "A") (.ok "I") "part" (some "err")) (mkApp "x")).1.output
      = "part" ∧
    (run_vm (testEngine (.ok "A") (.ok "I") "part" (some "err")) (mkApp "x")).1.console
      = (testEngine (.ok "A") (.ok "I") "part" (some "err")).dump_state []
          (mkArrays []) ++ "\n" ++
        (testEngine (.ok "A") (.ok "I") "part" (some "err")).dump_ir "I" :=
  ⟨rfl,
    (C4_no_rollback (testEngine (.ok "A") (.ok "I") "part" (some "err")) (mkApp "x")
      "A" "I" "part" "err" rfl rfl rfl).1,
    (C4_no_rollback (testEngine (.ok "A") (.ok "I") "part" (some "err")) (mkApp "x")
      "A" "I" "part" "err" rfl rfl rfl).2.1⟩

theorem stripCR_subset {c : Char} {acc : List Char} (h : c ∈ stripCR acc) : c ∈ acc := by
  cases acc with
  | nil => simp [stripCR] at h
  | cons a rest =>
    simp only [stripCR] at h
    split_ifs at h with ha
    · exact List.mem_cons_of_mem a h
    · exact h

theorem rustLinesAux_no_nl : ∀ (l acc : List Char), (∀ c ∈ acc, c ≠ '\n') →
    ∀ line ∈ rustLinesAux acc l, ∀ c ∈ line, c ≠ '\n' := by
  intro l
  induction l with
  | nil =>
    intro acc hacc line hline c hc
    simp only [rustLinesAux] at hline
    split_ifs at hline with h
    · simp at hline
    · simp only [List.mem_singleton] at hline
      subst hline
      exact hacc c (List.mem_reverse.mp hc)
  | cons c0 rest ih =>
    intro acc hacc line hline c hc
    simp only [rustLinesAux] at hline
    split_ifs at hline with h
    · rcases List.mem_cons.mp hline with hl | hl
      · subst hl
        exact hacc c (stripCR_subset (List.mem_reverse.mp hc))
      · exact ih [] (by simp) line hl c hc
    · refine ih (c0 :: acc) ?_ line hline c hc
      intro d hd
      rcases List.mem_cons.mp hd with rfl | hd'
      · exact h
      · exact hacc d hd'

theorem mkArrays_lookup : ∀ (arrays : List (String × String)) (k v : String),
    (arrays.map Prod.fst).Nodup → (k, v) ∈ arrays →
    List.lookup k (mkArrays arrays) = some (rustLines v) := by
  intro arrays
  induction arrays with
  | nil => intro k v _ hm; simp at hm
  | cons p rest ih =>
    intro k v hnd hm
    obtain ⟨k0, v0⟩ := p
    rw [List.map_cons, List.nodup_cons] at hnd
    rcases List.mem_cons.mp hm with he | hm'
    · injection he with h1 h2
      subst h1; subst h2
      simp [mkArrays, List.lookup]
    · have hk : k ≠ k0 := by
        rintro rfl
        exact hnd.1 (List.mem_map.mpr ⟨(k, v), hm', rfl⟩)
      have hb : (k == k0) = false := beq_eq_false_iff_ne.mpr hk
      simpa [mkArrays, List.lookup, hb] using ih k v hnd.2 hm'

/-- C7: the array environment handed to the VM binds each array name to
the result of splitting its stored multi-line string with `str::lines`,
i.e. to the ordered sequence of the string's lines (each line free of
newline characters). -/
theorem C7_array_environment (arrays : List (String × String)) (k v : String)
    (hnd : (arrays.map Prod.fst).Nodup) (hmem : (k, v) ∈ arrays) :
    List.lookup k (mkArrays arrays) = some (rustLines v) ∧
    ∀ line ∈ rustLines v, ∀ c ∈ line.data, c ≠ '\n' := by
  refine ⟨mkArrays_lookup arrays k v hnd hmem, ?_⟩
  intro line hline c hc
  obtain ⟨l, hl, rfl⟩ := List.mem_map.mp hline
  exact rustLinesAux_no_nl v.data [] (by simp) l hl c hc

/-- C7 witness: the default `LIST` array split into its lines. -/
theorem C7_array_environment_witness :
    ([("LIST", "first\nsecond\nthird")].map Prod.fst).Nodup ∧
    List.lookup "LIST" (mkArrays [("LIST", "first\nsecond\nthird")])
      = some (rustLines "first\nsecond\nthird") ∧
    rustLines "first\nsecond\nthird" = ["first", "second", "third"] :=
  ⟨by decide,
    (C7_array_environment [("LIST", "first\nsecond\nthird")] "LIST" "first\nsecond\nthird"
      (by decide) (by decide)).1,
    by decide⟩

theorem headIsBrace_replaceTabsL : ∀ l : List Char,
    headIsBrace (replaceTabsL l) = headIsBrace l := by
  intro l
  cases l with
  | nil => rfl
  | cons c rest =>
    by_cases h : c = '\t'
    · subst h; rfl
    · simp only [replaceTabsL, if_neg h, List.cons_append, List.nil_append]
      rfl

theorem hasBrace2_replaceTabsL : ∀ l : List Char,
    hasBrace2 (replaceTabsL l) = hasBrace2 l := by
  intro l
  induction l with
  | nil => rfl
  | cons c rest ih =>
    by_cases h : c = '\t'
    · subst h
      simp only [replaceTabsL, if_pos rfl, List.cons_append, List.nil_append, hasBrace2]
      rw [if_neg (by decide : ¬ ((' ' : Char) = '\x7b')),
        if_neg (by decide : ¬ (('\t' : Char) = '\x7b'))]
      exact ih
    · simp only [replaceTabsL, if_neg h, List.cons_append, List.nil_append, hasBrace2]
      rw [headIsBrace_replaceTabsL, ih]

theorem replaceTabsL_id : ∀ l : List Char, (∀ c ∈ l, c ≠ '\t') → replaceTabsL l = l := by
  intro l
  induction l with
  | nil => intro _; rfl
  | cons c rest ih =>
    intro h
    simp only [replaceTabsL, if_neg (h c (List.mem_cons_self c rest)), List.cons_append,
      List.nil_append]
    rw [ih fun d hd => h d (List.mem_cons_of_mem c hd)]

/-- C1 counterexample: the source `a\tb` contains no script block, yet
`run_vm` renders it as `a    b` (the tab expanded to four spaces), not as
the source unchanged. -/
theorem C1_round_trip_counterexample :
    noBlock "a\tb" ∧
    (run_vm specEngine (mkApp "a\tb")).1.output ≠ "a\tb" ∧
    (run_vm specEngine (mkApp "a\tb")).1.output = "a    b" :=
  ⟨by decide, by decide, by decide⟩

/-- C1 (amended): for a source containing no script blocks, the rendered
output equals the source with every tab replaced by four spaces; in
particular it equals the source unchanged exactly when the source
contains no tab characters.  The tab rewrite `run_vm` performs before
compiling breaks the verbatim round-trip for tab-bearing host text. -/
theorem C1_round_trip (src : String) (h : noBlock src) :
    (run_vm specEngine (mkApp src)).1.output = replaceTabs src ∧
    ((∀ c ∈ src.data, c ≠ '\t') → (run_vm specEngine (mkApp src)).1.output = src) := by
  have hb : hasBrace2 (replaceTabs src).data = false := by
    show hasBrace2 (replaceTabsL src.data) = false
    rw [hasBrace2_replaceTabsL]
    exact h
  have hout : (run_vm specEngine (mkApp src)).1.output = replaceTabs src := by
    rw [run_vm_output, run_core_ok specEngine rfl rfl]
    show (if hasBrace2 (replaceTabs src).data then ("", some ())
      else (replaceTabs src, none)).1 = replaceTabs src
    rw [hb]
    simp
  refine ⟨hout, fun ht => ?_⟩
  rw [hout]
  show String.mk (replaceTabsL src.data) = src
  rw [replaceTabsL_id src.data ht]

/-- C1 witness: the amended theorem applied to a block-free, tab-free
source, which does round-trip unchanged. -/
theorem C1_round_trip_witness :
    noBlock "ab" ∧ (run_vm specEngine (mkApp "ab")).1.output = "ab" :=
  ⟨by decide, (C1_round_trip "ab" (by decide)).2 (by decide)⟩

/-- C10: under the `-` and `+` scale buttons of `App::update`, the page
scale maintains the invariant that it lies in the interval from one to
five: starting from any scale in that interval, the `-` click sets it to
the maximum of (scale minus one half) and one, the `+` click to the
minimum of (scale plus one half) and five, and both results remain in
the interval. -/
theorem C10_scale_invariant (s : ℚ) (h1 : 1 ≤ s) (h2 : s ≤ 5) :
    scaleDec s = max (s - 1/2) 1 ∧ scaleInc s = min (s + 1/2) 5 ∧
    1 ≤ scaleDec s ∧ scaleDec s ≤ 5 ∧ 1 ≤ scaleInc s ∧ scaleInc s ≤ 5 := by
  have hd : scaleDec s = max (s - 1/2) 1 := by
    unfold scaleDec
    split_ifs with h
    · rw [max_eq_right]
      linarith
    · rw [max_eq_left]
      linarith
  have hi : scaleInc s = min (s + 1/2) 5 := by
    unfold scaleInc
    split_ifs with h
    · rw [min_eq_right]
      linarith
    · rw [min_eq_left]
      linarith
  refine ⟨hd, hi, ?_, ?_, ?_, ?_⟩
  · rw [hd]; exact le_max_right _ _
  · rw [hd]; apply max_le <;> linarith
  · rw [hi]; apply le_min <;> linarith
  · rw [hi]; exact min_le_right _ _

/-- C10 witness: the theorem applied at scale three. -/
theorem C10_scale_invariant_witness :
    ((1 : ℚ) ≤ 3 ∧ (3 : ℚ) ≤ 5) ∧
    (scaleDec 3 = max ((3 : ℚ) - 1/2) 1 ∧ scaleInc 3 = min ((3 : ℚ) + 1/2) 5 ∧
      1 ≤ scaleDec 3 ∧ scaleDec 3 ≤ 5 ∧ 1 ≤ scaleInc 3 ∧ scaleInc 3 ≤ 5) :=
  ⟨⟨by norm_num, by norm_num⟩, C10_scale_invariant 3 (by norm_num) (by norm_num)⟩

theorem btInsert_comm_lt {α : Type} {k k' : String} (v v' : α) (hlt : strLt k k' = true) :
    ∀ m : List (String × α),
      btInsert k v (btInsert k' v' m) = btInsert k' v' (btInsert k v m) := by
  have hgt : strLt k' k = false := strLt_asymm hlt
  have hne : ¬ k = k' := by
    intro h
    rw [h, strLt_irrefl] at hlt
    exact Bool.false_ne_true hlt
  have hne' : ¬ k' = k := fun h => hne h.symm
  intro m
  induction m with
  | nil => simp [btInsert, hlt, hgt, hne, hne']
  | cons p rest ih =>
    obtain ⟨k0, v0⟩ := p
    by_cases c1 : strLt k' k0 = true
    · have hk : strLt k k0 = true := strLt_trans hlt c1
      simp [btInsert, c1, hk, hlt, hgt, hne']
    · have c1' : strLt k' k0 = false := by simpa using c1
      by_cases c2 : k' = k0
      · subst c2
        simp [btInsert, hlt, hgt, hne', strLt_irrefl]
      · by_cases c3 : strLt k k0 = true
        · simp [btInsert, c1', c2, c3, hgt, hne']
        · have c3' : strLt k k0 = false := by simpa using c3
          by_cases c4 : k = k0
          · subst c4
            simp [btInsert, strLt_irrefl, hgt, hne', hlt]
          · simp [btInsert, c1', c2, c3', c4, ih]

theorem btInsert_comm {α : Type} {k k' : String} (v v' : α) (hne : k ≠ k')
    (m : List (String × α)) :
    btInsert k v (btInsert k' v' m) = btInsert k' v' (btInsert k v m) := by
  rcases Bool.eq_false_or_eq_true (strLt k k') with h | h
  · exact btInsert_comm_lt v v' h m
  · rcases Bool.eq_false_or_eq_true (strLt k' k) with h2 | h2
    · exact (btInsert_comm_lt v' v h2 m).symm
    · exact absurd (strLt_conn h h2) hne

theorem btOfList_perm {α : Type} {l₁ l₂ : List (String × α)}
    (hp : l₁.Perm l₂) (hnd : (l₁.map Prod.fst).Nodup) :
    btOfList l₁ = btOfList l₂ := by
  unfold btOfList
  refine hp.foldl_eq' ?_ []
  intro x hx y hy z
  by_cases hxy : x = y
  · rw [hxy]
  · have hk : y.1 ≠ x.1 := by
      intro h
      exact hxy (List.inj_on_of_nodup_map hnd hx hy h.symm)
    exact btInsert_comm y.2 x.2 hk z

/-- C8: `dump_state` output is identical across two runs whose variable
and array environments contain the same key-value pairs regardless of the
order in which those entries were inserted into the `BTreeMap`s: building
the maps from any two permutations of the same duplicate-free entry lists
yields identical sorted maps, hence an identical state dump and an
identical console after `run_vm`. -/
theorem C8_dump_state_stability (l₁ l₂ a₁ a₂ : List (String × String))
    (hv : l₁.Perm l₂) (hnv : (l₁.map Prod.fst).Nodup)
    (ha : a₁.Perm a₂) (hna : (a₁.map Prod.fst).Nodup) :
    dump_state_model (btOfList l₁) (mkArrays (btOfList a₁)) =
      dump_state_model (btOfList l₂) (mkArrays (btOfList a₂)) ∧
    ∀ {Ast Ir Err : Type} (E : Engine Ast Ir Err) (code con : String),
      (run_vm E (mkAppFull code (btOfList l₁) (btOfList a₁) con)).1.console =
        (run_vm E (mkAppFull code (btOfList l₂) (btOfList a₂) con)).1.console := by
  have e1 : btOfList l₁ = btOfList l₂ := btOfList_perm hv hnv
  have e2 : btOfList a₁ = btOfList a₂ := btOfList_perm ha hna
  rw [e1, e2]
  exact ⟨rfl, fun E code con => rfl⟩

/-- C8 witness: the same two entries inserted in both orders give the
same dump. -/
theorem C8_dump_state_stability_witness :
    ([("b", "1"), ("a", "2")] : List (String × String)).Perm [("a", "2"), ("b", "1")] ∧
    (([("b", "1"), ("a", "2")] : List (String × String)).map Prod.fst).Nodup ∧
    dump_state_model (btOfList [("b", "1"), ("a", "2")]) (mkArrays (btOfList [("L", "x")])) =
      dump_state_model (btOfList [("a", "2"), ("b", "1")]) (mkArrays (btOfList [("L", "x")])) :=
  ⟨List.Perm.swap ("a", "2") ("b", "1") [], by decide,
    (C8_dump_state_stability [("b", "1"), ("a", "2")] [("a", "2"), ("b", "1")]
      [("L", "x")] [("L", "x")] (List.Perm.swap ("a", "2") ("b", "1") [])
      (by decide) (List.Perm.refl _) (by decide)).1⟩
